/-
Verification of the hildon-desktop transition module (src/util/hd-transition.c).

The file contains a shallow embedding of the parts of the module the claims
are about:
  * the easing functions (hd_transition_overshoot, hd_transition_smooth_ramp,
    hd_transition_ease_in, hd_transition_ease_out), modelled over the reals;
  * the per-frame handler of subview transitions
    (on_subview_timeline_new_frame), modelled as a pure update of the
    observable actor state (anchor points and visibility);
  * the effect-lifecycle manager (HDEffectData records, the per-client
    flag/effect-pointer state, hd_transition_completed, hd_transition_stop,
    hd_transition_subview and the public constructors), modelled as a
    transition system over an explicit state record, instrumented with logs
    that record every invocation of the teardown routine and of the global
    effect-counter decrement;
  * the orientation-rotation state machine (hd_transition_rotating_fsm,
    hd_transition_rotate_screen, hd_transition_rotate_ignore_damage),
    modelled with an explicit fuel parameter for the synchronous re-entrant
    self-invocations, instrumented with logs of the externally visible calls
    (screen reconfiguration, fade starts, re-entrant calls).

C floats are modelled as real numbers (the numeric literal 3.141592 of the
source is kept as the literal rational constant, not replaced by pi);
C truncation of a float to int is modelled as truncation toward zero.
-/
import Mathlib

namespace HdTransition

/-! ## Easing library (hd-transition.c lines 136-172) -/

/-- Model of hd_transition_overshoot.  Note the C source has no
identity guard outside (0,1): it always splits x into integer part
(C cast, truncation toward zero) and fraction and applies the
cosine ramp and sine convergence factor. -/
noncomputable def hd_transition_overshoot (x : ℝ) : ℝ :=
  let offset : ℤ := if 0 ≤ x then ⌊x⌋ else -⌊-x⌋
  let amt : ℝ := x - (offset : ℝ)
  let sramp : ℝ := 1 - Real.cos (amt * 3.141592)
  let converge : ℝ := Real.sin (0.5 * 3.141592 * (1 - amt))
  (offset : ℝ) + sramp * 0.675 * converge + (1 - converge)

/-- Model of hd_transition_smooth_ramp: cosine S-curve on (0,1),
identity outside. -/
noncomputable def hd_transition_smooth_ramp (amt : ℝ) : ℝ :=
  if 0 < amt ∧ amt < 1 then (1 - Real.cos (amt * 3.141592)) * 0.5 else amt

/-- Model of hd_transition_ease_in. -/
noncomputable def hd_transition_ease_in (amt : ℝ) : ℝ :=
  if 0 < amt ∧ amt < 1 then 1 - Real.cos (amt * 3.141592 * 0.5) else amt

/-- Model of hd_transition_ease_out. -/
noncomputable def hd_transition_ease_out (amt : ℝ) : ℝ :=
  if 0 < amt ∧ amt < 1 then Real.cos ((1 - amt) * 3.141592 * 0.5) else amt

/-! ## Rotation fade angle sign (hd_transition_fade_and_rotate, lines 1136-1140) -/

/-- The angle stored into HDEffectData::angle by hd_transition_fade_and_rotate:
the configured "rotate"/"angle" value, multiplied by -1 when
first_part == goto_portrait (source comment: rotate backwards when going
back to landscape). -/
def hd_transition_fade_and_rotate_angle
    (first_part goto_portrait : Bool) (configured_angle : ℚ) : ℚ :=
  if first_part == goto_portrait then configured_angle * (-1) else configured_angle

/-! ## Side-effect order of the public transition constructors

Each list records, in source order, the externally visible side effects of
one constructor that the claims talk about: setting the per-client
DontUpdate/EffectRunning flags, incrementing the global effect counter
(hd_comp_mgr_set_effect_running TRUE), synchronously applying the first
animation frame ("first call to stop flicker"), and starting the timeline. -/

inductive TransitionAct
  | flagsSet
  | effectRunningInc
  | firstFrame
  | timelineStart
  | soundPlay
  | appendWaiting
  deriving DecidableEq

/-- hd_transition_popup (lines 708-723): flags, counter, first frame, start. -/
def popupSideEffects : List TransitionAct :=
  [.flagsSet, .effectRunningInc, .firstFrame, .timelineStart]

/-- hd_transition_fade (lines 753-760): flags, counter, first frame, start. -/
def fadeSideEffects : List TransitionAct :=
  [.flagsSet, .effectRunningInc, .firstFrame, .timelineStart]

/-- hd_transition_close_app (lines 828-855): flags, counter, start, sound.
There is no synchronous first-frame application in this constructor. -/
def closeAppSideEffects : List TransitionAct :=
  [.flagsSet, .effectRunningInc, .timelineStart, .soundPlay]

/-- hd_transition_notification (lines 939-946): flags, counter, first frame,
start. -/
def notificationSideEffects : List TransitionAct :=
  [.flagsSet, .effectRunningInc, .firstFrame, .timelineStart]

/-- hd_transition_subview, fresh-record path (lines 1072-1085): flags on both
clients, counter, first frame, start. -/
def subviewSideEffects : List TransitionAct :=
  [.flagsSet, .flagsSet, .effectRunningInc, .firstFrame, .timelineStart]

/-- A trace applies the first frame synchronously before starting the
timeline. -/
def appliesFirstFrameBeforeTimer (l : List TransitionAct) : Prop :=
  TransitionAct.firstFrame ∈ l ∧
    l.indexOf TransitionAct.firstFrame < l.indexOf TransitionAct.timelineStart

instance (l : List TransitionAct) : Decidable (appliesFirstFrameBeforeTimer l) :=
  inferInstanceAs (Decidable (_ ∧ _))

/-! ## Subview per-frame handler (on_subview_timeline_new_frame, lines 471-530)

The handler writes absolute values into the two actors (anchor points,
visibility); it never reads them.  The observable state it drives: -/

/-- Map/unmap direction of a transition (MBWMCompMgrClientEvent). -/
inductive CEvent
  | map
  | unmap
  deriving DecidableEq

/-- Observable state written by on_subview_timeline_new_frame: the x anchor
point and visibility of the subview actor and of the mainview actor
(the y anchor is always set to 0 and is omitted). -/
@[ext] structure SubviewActors where
  subAnchorX : ℝ
  subVisible : Bool
  mainAnchorX : ℝ
  mainVisible : Bool

/-- Model of on_subview_timeline_new_frame.  has_subview / has_mainview tell
whether data->cclient resp. data->cclient2 (and their actors) are present.
The final block (frame_num == n_frames) returns the actors to their proper
places and hides the one that ends up covered. -/
noncomputable def on_subview_timeline_new_frame
    (event : CEvent) (screen_width : ℝ) (has_subview has_mainview : Bool)
    (n_frames frame_num : ℕ) (a : SubviewActors) : SubviewActors :=
  let amt0 : ℝ := (frame_num : ℝ) / (n_frames : ℝ)
  let amt1 : ℝ := hd_transition_smooth_ramp amt0
  let amt : ℝ := if event = .unmap then 1 - amt1 else amt1
  let corner_x : ℝ := (1 - amt) * screen_width
  let a1 := if has_subview
            then { a with subAnchorX := -corner_x, subVisible := true } else a
  let a2 := if has_mainview
            then { a1 with mainAnchorX := -(corner_x - screen_width),
                           mainVisible := true } else a1
  if frame_num = n_frames then
    let a3 := if has_subview
              then { a2 with subAnchorX := 0,
                             subVisible := if event = .unmap then false
                                           else a2.subVisible }
              else a2
    if has_mainview
    then { a3 with mainAnchorX := 0,
                   mainVisible := if event = .map then false
                                  else a3.mainVisible }
    else a3
  else a2

/-- Apply a sequence of new-frame emissions in order. -/
noncomputable def runSubviewFrames (event : CEvent) (screen_width : ℝ)
    (has_subview has_mainview : Bool) (n_frames : ℕ)
    (frames : List ℕ) (a : SubviewActors) : SubviewActors :=
  frames.foldl
    (fun st f =>
      on_subview_timeline_new_frame event screen_width has_subview has_mainview
        n_frames f st) a

/-- Frames seen on natural completion: the constructor applies frame 0
synchronously, the timeline then emits 1..n_frames ("completed" only fires
after the final new-frame, which the handler recognises by
frame_num == n_frames). -/
def naturalFrames (n_frames : ℕ) : List ℕ := List.range (n_frames + 1)

/-- Frames seen when hd_transition_stop interrupts after frame k: the frames
emitted so far, then the one synthesized last frame that stop emits with
frame number n_frames (lines 1102-1106) before calling the completion
handler. -/
def forcedStopFrames (k n_frames : ℕ) : List ℕ := List.range (k + 1) ++ [n_frames]

/-! ## Orientation rotation state machine (lines 72-124, 1172-1344)

The Orientation_change singleton is modelled as an explicit state record.
External collaborators are instrumented as logs: reconfigs counts the calls
of hd_util_change_screen_orientation, fadeLog records the
(first_part, goto_portrait) arguments of every hd_transition_fade_and_rotate
call, setStateLog the hd_render_manager_set_state calls, drained the records
passed to hd_transition_completed from the FADE_OUT drain, reentryLog the
(direction, new_direction) pair at the moment of every synchronous
self-invocation of hd_transition_rotating_fsm.  screenPortrait mirrors the
X screen orientation read back by hd_comp_mgr_is_portrait; inside this
module it changes only through hd_util_change_screen_orientation. -/

/-- Rotation direction (the direction/new_direction enum). -/
inductive RotDir
  | gotoLandscape
  | gotoPortrait
  deriving DecidableEq

/-- Whether a direction is the portrait one. -/
def RotDir.isPortrait : RotDir → Bool
  | .gotoLandscape => false
  | .gotoPortrait => true

/-- Phase of hd_transition_rotating_fsm. -/
inductive RotPhase
  | idle
  | fadeOut
  | waiting
  | fadeIn
  deriving DecidableEq

/-- External HDRM state predicates consumed by the FADE_OUT phase
(STATE_IS_PORTRAIT and STATE_IS_PORTRAIT_CAPABLE); HDRM states are
numbered with 0 = HDRM_STATE_UNDEFINED. -/
structure FsmEnv where
  stateIsPortrait : ℕ → Bool
  stateIsPortraitCapable : ℕ → Bool

/-- The Orientation_change singleton plus instrumentation logs. -/
structure FsmState where
  direction : RotDir := .gotoLandscape
  newDirection : RotDir := .gotoLandscape
  phase : RotPhase := .idle
  gotoState : ℕ := 0
  timeoutActive : Bool := false
  timerActive : Bool := false
  effectsWaiting : List ℕ := []
  screenPortrait : Bool := false
  reconfigs : ℕ := 0
  resets : ℕ := 0
  setStateLog : List ℕ := []
  fadeLog : List (Bool × Bool) := []
  drained : List ℕ := []
  reentryLog : List (RotDir × RotDir) := []
  deriving DecidableEq

/-- The code under the `case WAITING` label of hd_transition_rotating_fsm
(lines 1251-1268); it is also reached by fall-through from FADE_OUT.
recur is the re-entrant self-invocation with the remaining fuel. -/
def fsmWaitingCase (recur : FsmState → FsmState) (s : FsmState) : FsmState :=
  if s.direction = s.newDirection then
    { s with phase := .fadeIn,
             fadeLog := s.fadeLog ++ [(false, s.direction.isPortrait)] }
  else
    let s1 := { s with direction := s.newDirection, phase := .fadeOut }
    recur { s1 with reentryLog := s1.reentryLog ++ [(s1.direction, s1.newDirection)] }

/-- The beginning of the FADE_OUT case of hd_transition_rotating_fsm
(lines 1201-1227): the best-effort HDRM state change gated by the
portrait-capability of the requested state, then the drain of
Orientation_change.effects_waiting (hd_transition_completed on each waiting
record, in order - mirrored here by the drained log; the manager-level
effect of the same drain is drainEffectsWaiting below). -/
def fsmFadeOutPrep (env : FsmEnv) (s : FsmState) : FsmState :=
  let st := s.gotoState
  let change : Bool :=
    if s.newDirection = .gotoPortrait
    then env.stateIsPortrait st || env.stateIsPortraitCapable st
    else !env.stateIsPortrait st && !(st == 0)
  let s1 := if change
            then { s with gotoState := 0, setStateLog := s.setStateLog ++ [st] }
            else s
  { s1 with drained := s1.drained ++ s1.effectsWaiting, effectsWaiting := [] }

/-- Model of hd_transition_rotating_fsm (lines 1172-1277).  The fuel bounds
the synchronous re-entrant self-invocations; fuel 2 always suffices (proved
below: fsmFuel_add_two). -/
def fsmFuel (env : FsmEnv) : ℕ → FsmState → FsmState
  | 0, s => s
  | fuel + 1, s0 =>
    let s := { s0 with timeoutActive := false, timerActive := false }
    match s.phase with
    | .idle =>
      let s1 := { s with phase := .fadeOut, direction := s.newDirection }
      { s1 with fadeLog := s1.fadeLog ++ [(true, s1.direction.isPortrait)] }
    | .fadeOut =>
      let s2 := fsmFadeOutPrep env s
      if s2.direction = s2.newDirection then
        { s2 with phase := .waiting,
                  screenPortrait := s2.direction.isPortrait,
                  reconfigs := s2.reconfigs + 1,
                  timeoutActive := true, timerActive := true }
      else
        fsmWaitingCase (fsmFuel env fuel) { s2 with direction := s2.newDirection }
    | .waiting => fsmWaitingCase (fsmFuel env fuel) s
    | .fadeIn =>
      let s1 := { s with phase := .idle }
      if s1.direction = s1.newDirection then s1
      else
        fsmFuel env fuel
          { s1 with reentryLog := s1.reentryLog ++ [(s1.direction, s1.newDirection)] }

/-- Model of hd_transition_rotate_screen (lines 1282-1304): store the
requested direction; when IDLE, reject a request for the orientation the
screen already has (returning FALSE), otherwise kick the state machine;
when not IDLE the updated new_direction is picked up at the next phase end. -/
def hd_transition_rotate_screen (env : FsmEnv) (goto_portrait : Bool)
    (s0 : FsmState) : Bool × FsmState :=
  let s := { s0 with newDirection := if goto_portrait then RotDir.gotoPortrait
                                     else RotDir.gotoLandscape }
  if s.phase = .idle then
    if goto_portrait = s.screenPortrait then (false, s)
    else (true, fsmFuel env 2 s)
  else (true, s)

/-- Model of hd_transition_rotate_ignore_damage (lines 1322-1344).
damage_timeout_max is the configured ceiling in milliseconds, elapsed the
value of g_timer_elapsed in seconds since WAITING was entered.  A granted
reset re-arms the debounce timeout and is counted in resets. -/
def hd_transition_rotate_ignore_damage (damage_timeout_max elapsed : ℚ)
    (s : FsmState) : Bool × FsmState :=
  if s.phase = .waiting then
    let s1 := if elapsed < damage_timeout_max / 1000
              then { s with timeoutActive := true, resets := s.resets + 1 }
              else s
    (true, s1)
  else (false, s)

/-- Consistency of the singleton with the physical screen orientation:
while IDLE the machine sits with direction = new_direction and the screen
in the direction it last configured; while a fade-out toward `direction`
runs the screen still has the opposite orientation; from WAITING on, the
screen has been reconfigured to `direction`.  This is the reachability
invariant of the module (preservation lemmas below). -/
def FsmInv (s : FsmState) : Prop :=
  match s.phase with
  | .idle => s.direction = s.newDirection ∧ s.screenPortrait = s.direction.isPortrait
  | .fadeOut => s.screenPortrait = !s.direction.isPortrait
  | .waiting => s.screenPortrait = s.direction.isPortrait
  | .fadeIn => s.screenPortrait = s.direction.isPortrait

/-- A concrete environment for closed scenario runs: no HDRM state is
portrait or portrait capable (in particular HDRM_STATE_UNDEFINED is not). -/
def fsmTestEnv : FsmEnv := ⟨fun _ => false, fun _ => false⟩

/-- A state in the FADE_IN phase whose requested direction changed while
fading in (direction = landscape, new_direction = portrait). -/
def fsmFadeInOverride : FsmState :=
  { phase := .fadeIn, direction := .gotoLandscape,
    newDirection := .gotoPortrait }

/-- Initial state of the rotate-to-portrait scenario: machine IDLE, screen
in landscape, direction and new_direction landscape. -/
def rotateScenarioStart : FsmState := {}

/-- Scenario: state after hd_transition_rotate_screen(goto_portrait = TRUE)
from rotateScenarioStart. -/
def rotScen1 (env : FsmEnv) : FsmState :=
  (hd_transition_rotate_screen env true rotateScenarioStart).2

/-- Scenario: state after the fade-out effect completes (its "completed"
callback re-enters the state machine). -/
def rotScen2 (env : FsmEnv) : FsmState := fsmFuel env 2 (rotScen1 env)

/-- Scenario: state after the WAITING debounce timeout fires (its callback
is the state machine). -/
def rotScen3 (env : FsmEnv) : FsmState := fsmFuel env 2 (rotScen2 env)

/-- Scenario: state after the fade-in effect completes. -/
def rotScen4 (env : FsmEnv) : FsmState := fsmFuel env 2 (rotScen3 env)

instance (s : FsmState) : Decidable (FsmInv s) := by
  unfold FsmInv; exact match s.phase with
  | .idle => inferInstanceAs (Decidable (_ ∧ _))
  | .fadeOut => inferInstanceAs (Decidable (_ = _))
  | .waiting => inferInstanceAs (Decidable (_ = _))
  | .fadeIn => inferInstanceAs (Decidable (_ = _))

/-! ## Effect lifecycle manager (HDEffectData, lines 54-70, 611-1110)

Records are identified by numeric ids (fresh ids from a counter replace the
malloc pointers).  The per-client state mirrors the
MBWMCompMgrClutterClient flag bits used by this module plus the
HdCompMgrClient::effect back pointer.  Teardown instrumentation:
completedLog records every invocation of hd_transition_completed (the id it
was invoked for), decrementLog every hd_comp_mgr_set_effect_running(FALSE)
call it makes.  hd_transition_completed itself has no reentrance guard in
the source - invoking it twice for one record would be a double free - so
the model logs unconditionally and the at-most-once property is proved from
the guards of the invoking paths. -/

/-- The fields of HDEffectData the lifecycle logic depends on.  hasTimeline:
data->timeline was set (it is left NULL by
hd_transition_close_app_before_rotate); hasHmgr: data->hmgr was set (it is
left NULL by hd_transition_fade_and_rotate), which gates the counter
decrement in hd_transition_completed. -/
structure EffectRec where
  event : CEvent
  cclient : Option ℕ := none
  cclient2 : Option ℕ := none
  hasTimeline : Bool := false
  hasHmgr : Bool := false
  deriving DecidableEq

/-- Per-client state: the MBWMCompMgrClutterClient flag bits this module
sets/clears and the HdCompMgrClient::effect pointer. -/
structure ClientState where
  dontUpdate : Bool := false
  effectRunning : Bool := false
  dontShow : Bool := false
  effect : Option ℕ := none
  deriving DecidableEq

/-- State of the effect lifecycle manager. -/
structure MgrState where
  nextId : ℕ := 0
  records : List (ℕ × EffectRec) := []
  clients : List (ℕ × ClientState) := []
  waiting : List ℕ := []
  completedLog : List ℕ := []
  decrementLog : List ℕ := []
  deriving DecidableEq

/-- Association-list lookup by key. -/
def assq {α : Type} (k : ℕ) : List (ℕ × α) → Option α
  | [] => none
  | (a, b) :: l => if k = a then some b else assq k l

/-- Number of occurrences of r in a list of ids. -/
def occ (r : ℕ) : List ℕ → ℕ
  | [] => 0
  | x :: l => (if x = r then 1 else 0) + occ r l

/-- Current state of a client (absent means all-clear defaults). -/
def getCl (s : MgrState) (c : ℕ) : ClientState :=
  (assq c s.clients).getD {}

/-- Update a client's state. -/
def setCl (s : MgrState) (c : ℕ) (v : ClientState) : MgrState :=
  { s with clients := (c, v) :: s.clients }

/-- Remove the entry with the given key from an association list. -/
def eraseKey {α : Type} (r : ℕ) : List (ℕ × α) → List (ℕ × α)
  | [] => []
  | (a, b) :: l => if a = r then eraseKey r l else (a, b) :: eraseKey r l

/-- Replace an existing record's data (used by the subview swap). -/
def putRec (s : MgrState) (r : ℕ) (d : EffectRec) : MgrState :=
  { s with records := (r, d) :: eraseKey r s.records }

/-- A record is alive: allocated and not yet torn down. -/
def aliveRec (s : MgrState) (r : ℕ) : Prop := (assq r s.records).isSome = true

/-- Model of hd_transition_completed (lines 611-672): clear the effect
pointer and the DontUpdate/EffectRunning flags of cclient and of cclient2,
release the record (actors, particles, timeline), decrement the global
effect counter when data->hmgr is set.  The C function is not guarded: the
model logs the invocation even for an id that is no longer allocated
(which in C would be a use after free). -/
def hd_transition_completed (r : ℕ) (s : MgrState) : MgrState :=
  match assq r s.records with
  | some d =>
    let s1 := match d.cclient with
      | some c =>
        setCl s c
          { getCl s c with
            effect := none, dontUpdate := false, effectRunning := false }
      | none => s
    let s2 := match d.cclient2 with
      | some c =>
        setCl s1 c
          { getCl s1 c with
            effect := none, dontUpdate := false, effectRunning := false }
      | none => s1
    let s3 := { s2 with records := eraseKey r s2.records }
    let s4 := if d.hasHmgr
              then { s3 with decrementLog := s3.decrementLog ++ [r] }
              else s3
    { s4 with completedLog := s4.completedLog ++ [r] }
  | none => { s with completedLog := s.completedLog ++ [r] }

/-- Common body of hd_transition_popup / fade / close_app / notification
(lines 674-947) once their preconditions passed: allocate the record,
reference the client and actor, set DontUpdate|EffectRunning on the client,
increment the global counter, start the timeline. -/
def startClientEffect (c : ℕ) (e : CEvent) (s : MgrState) : MgrState :=
  let r := s.nextId
  let d : EffectRec := { event := e, cclient := some c,
                         hasTimeline := true, hasHmgr := true }
  let s1 := { s with nextId := r + 1, records := (r, d) :: s.records }
  setCl s1 c { getCl s1 c with dontUpdate := true, effectRunning := true }

/-- Model of hd_transition_close_app_before_rotate (lines 858-909): no
timeline; the record is appended to Orientation_change.effects_waiting and
DontShow is set in addition. -/
def hd_transition_close_app_before_rotate (c : ℕ) (s : MgrState) : MgrState :=
  let r := s.nextId
  let d : EffectRec := { event := .unmap, cclient := some c,
                         hasTimeline := false, hasHmgr := true }
  let s1 := { s with nextId := r + 1, records := (r, d) :: s.records,
                     waiting := s.waiting ++ [r] }
  setCl s1 c
    { getCl s1 c with
      dontUpdate := true, dontShow := true, effectRunning := true }

/-- Model of the record created by hd_transition_fade_and_rotate
(lines 1115-1170): no client references and data->hmgr stays NULL. -/
def startFadeRotateEffect (e : CEvent) (s : MgrState) : MgrState :=
  let r := s.nextId
  let d : EffectRec := { event := e, hasTimeline := true, hasHmgr := false }
  { s with nextId := r + 1, records := (r, d) :: s.records }

/-- Model of hd_transition_subview (lines 949-1086).  state_is_app is the
STATE_IS_APP(hd_render_manager_get_state()) guard.  The three situations of
the source: both endpoints mid-transition - drop; only the mainview
mid-transition and it is the entering target of a running map subview
transition - swap that record's cclient in place; symmetrically for the
subview side of a running unmap transition; otherwise create a fresh
record, flag both clients and point their effect pointers at it. -/
def hd_transition_subview (subview mainview : ℕ) (e : CEvent)
    (state_is_app : Bool) (s : MgrState) : MgrState :=
  if subview = mainview then s
  else if !state_is_app then s
  else
    let subT := (getCl s subview).effectRunning
    let mainT := (getCl s mainview).effectRunning
    if subT && mainT then s
    else if mainT then
      match e, (getCl s mainview).effect with
      | .map, some r =>
        match assq r s.records with
        | some d =>
          if d.event = .map ∧ d.cclient = some mainview then
            let s1 := setCl s mainview
              { getCl s mainview with
                effect := none, dontUpdate := false, effectRunning := false }
            let s2 := putRec s1 r { d with cclient := some subview }
            setCl s2 subview
              { getCl s2 subview with
                dontUpdate := true, effectRunning := true, effect := some r }
          else s
        | none => s
      | _, _ => s
    else if subT then
      match e, (getCl s subview).effect with
      | .unmap, some r =>
        match assq r s.records with
        | some d =>
          if d.event = .unmap ∧ d.cclient2 = some subview then
            let s1 := setCl s subview
              { getCl s subview with
                effect := none, dontUpdate := false, effectRunning := false }
            let s2 := putRec s1 r { d with cclient2 := some mainview }
            setCl s2 mainview
              { getCl s2 mainview with
                dontUpdate := true, effectRunning := true, effect := some r }
          else s
        | none => s
      | _, _ => s
    else
      let r := s.nextId
      let d : EffectRec := { event := e, cclient := some subview,
                             cclient2 := some mainview,
                             hasTimeline := true, hasHmgr := true }
      let s1 := { s with nextId := r + 1, records := (r, d) :: s.records }
      let s2 := setCl s1 subview
        { getCl s1 subview with dontUpdate := true, effectRunning := true }
      let s3 := setCl s2 mainview
        { getCl s2 mainview with dontUpdate := true, effectRunning := true }
      let s4 := setCl s3 mainview { getCl s3 mainview with effect := some r }
      setCl s4 subview { getCl s4 subview with effect := some r }

/-- Model of hd_transition_stop (lines 1091-1110): only acts when the
client's effect pointer is set; it stops the timeline, emits the synthetic
last frame (no manager-state effect) and calls hd_transition_completed. -/
def hd_transition_stop (c : ℕ) (s : MgrState) : MgrState :=
  match (getCl s c).effect with
  | some r => hd_transition_completed r s
  | none => s

/-- The timeline "completed" signal delivering for record r.  The signal
can only ever fire for a record that is still allocated and owns a timeline:
hd_transition_completed releases the timeline, destroying the signal
source. -/
def timelineCompletedSignal (r : ℕ) (s : MgrState) : MgrState :=
  match assq r s.records with
  | some d => if d.hasTimeline then hd_transition_completed r s else s
  | none => s

/-- The FADE_OUT drain of Orientation_change.effects_waiting
(lines 1219-1227): hd_transition_completed is called on every waiting
record in order, then the list is emptied. -/
def drainEffectsWaiting (s : MgrState) : MgrState :=
  let s1 := s.waiting.foldl (fun st r => hd_transition_completed r st) s
  { s1 with waiting := [] }

/-- The externally triggerable operations of the lifecycle manager.  The
Bool arguments stand for the transition-specific preconditions checked by
each constructor (missing actor, client type, switcher active, window too
small, ...); when false the constructor is a silent no-op. -/
inductive MgrEvent
  | popup (c : ℕ) (e : CEvent) (pre : Bool)
  | fade (c : ℕ) (e : CEvent)
  | closeApp (c : ℕ) (pre : Bool)
  | closeAppBeforeRotate (c : ℕ) (pre : Bool)
  | notification (c : ℕ) (e : CEvent)
  | fadeRotate (e : CEvent)
  | subview (subview mainview : ℕ) (e : CEvent) (state_is_app : Bool)
  | timelineCompleted (r : ℕ)
  | stop (c : ℕ)
  | drain

/-- One step of the lifecycle manager. -/
def mgrStep : MgrEvent → MgrState → MgrState
  | .popup c e pre, s => if pre then startClientEffect c e s else s
  | .fade c e, s => startClientEffect c e s
  | .closeApp c pre, s => if pre then startClientEffect c .unmap s else s
  | .closeAppBeforeRotate c pre, s =>
    if pre then hd_transition_close_app_before_rotate c s else s
  | .notification c e, s => startClientEffect c e s
  | .fadeRotate e, s => startFadeRotateEffect e s
  | .subview sv mv e app, s => hd_transition_subview sv mv e app s
  | .timelineCompleted r, s => timelineCompletedSignal r s
  | .stop c, s => hd_transition_stop c s
  | .drain, s => drainEffectsWaiting s

/-- Run the manager from the initial (empty) state. -/
def mgrRun (evs : List MgrEvent) : MgrState :=
  evs.foldl (fun s e => mgrStep e s) {}

/-- The safety invariant of the lifecycle manager.  It captures why the
teardown routine can never run twice for one record: a teardown is logged
at most once per id; allocated records have never been torn down; the
deferred list holds only allocated, timeline-less records, each at most
once; every armed client effect pointer leads to an allocated record that
references that client back and is not in the deferred list; ids at or
above the allocation counter are completely unused; and counter decrements
happen only within logged teardowns. -/
structure MgrInv (s : MgrState) : Prop where
  logOnce : ∀ r, occ r s.completedLog ≤ 1
  aliveUnlogged : ∀ r d, assq r s.records = some d → occ r s.completedLog = 0
  waitingAlive : ∀ r, 0 < occ r s.waiting →
    ∃ d, assq r s.records = some d ∧ d.hasTimeline = false
  waitingOnce : ∀ r, occ r s.waiting ≤ 1
  effectPtr : ∀ c r, (getCl s c).effect = some r →
    (∃ d, assq r s.records = some d ∧
      (d.cclient = some c ∨ d.cclient2 = some c)) ∧ occ r s.waiting = 0
  fresh : ∀ r, s.nextId ≤ r →
    assq r s.records = none ∧ occ r s.waiting = 0 ∧
    occ r s.completedLog = 0 ∧ ∀ c, (getCl s c).effect ≠ some r
  decLe : ∀ r, occ r s.decrementLog ≤ occ r s.completedLog

/-! ## Theorems -/

/-- A frame never touches the subview actor when data->cclient is absent. -/
theorem subview_frame_no_sub (event : CEvent) (w : ℝ) (hm : Bool)
    (n f : ℕ) (a : SubviewActors) :
    (on_subview_timeline_new_frame event w false hm n f a).subAnchorX
      = a.subAnchorX ∧
    (on_subview_timeline_new_frame event w false hm n f a).subVisible
      = a.subVisible := by
  unfold on_subview_timeline_new_frame
  cases hm <;> cases event <;> by_cases hf : f = n <;> simp [hf]

/-- A frame never touches the mainview actor when data->cclient2 is absent. -/
theorem subview_frame_no_main (event : CEvent) (w : ℝ) (hs : Bool)
    (n f : ℕ) (a : SubviewActors) :
    (on_subview_timeline_new_frame event w hs false n f a).mainAnchorX
      = a.mainAnchorX ∧
    (on_subview_timeline_new_frame event w hs false n f a).mainVisible
      = a.mainVisible := by
  unfold on_subview_timeline_new_frame
  cases hs <;> cases event <;> by_cases hf : f = n <;> simp [hf]

/-- The frame with frame_num = n_frames leaves the subview actor in its
settled end state, independently of the input state: anchor 0, hidden
exactly for an unmap transition. -/
theorem subview_frame_last_sub (event : CEvent) (w : ℝ) (hm : Bool)
    (n : ℕ) (a : SubviewActors) :
    (on_subview_timeline_new_frame event w true hm n n a).subAnchorX = 0 ∧
    (on_subview_timeline_new_frame event w true hm n n a).subVisible
      = (if event = .unmap then false else true) := by
  unfold on_subview_timeline_new_frame
  cases hm <;> simp

/-- The frame with frame_num = n_frames leaves the mainview actor in its
settled end state, independently of the input state: anchor 0, hidden
exactly for a map transition. -/
theorem subview_frame_last_main (event : CEvent) (w : ℝ) (hs : Bool)
    (n : ℕ) (a : SubviewActors) :
    (on_subview_timeline_new_frame event w hs true n n a).mainAnchorX = 0 ∧
    (on_subview_timeline_new_frame event w hs true n n a).mainVisible
      = (if event = .map then false else true) := by
  unfold on_subview_timeline_new_frame
  cases hs <;> simp

/-- Folding frames preserves the subview fields when the subview client is
absent. -/
theorem runSubviewFrames_no_sub (event : CEvent) (w : ℝ) (hm : Bool)
    (n : ℕ) (l : List ℕ) (a : SubviewActors) :
    (runSubviewFrames event w false hm n l a).subAnchorX = a.subAnchorX ∧
    (runSubviewFrames event w false hm n l a).subVisible = a.subVisible := by
  induction l generalizing a with
  | nil => exact ⟨rfl, rfl⟩
  | cons f t ih =>
    have h := subview_frame_no_sub event w hm n f a
    have h2 := ih (on_subview_timeline_new_frame event w false hm n f a)
    simp only [runSubviewFrames, List.foldl_cons] at h2 ⊢
    exact ⟨h2.1.trans h.1, h2.2.trans h.2⟩

/-- Folding frames preserves the mainview fields when the mainview client is
absent. -/
theorem runSubviewFrames_no_main (event : CEvent) (w : ℝ) (hs : Bool)
    (n : ℕ) (l : List ℕ) (a : SubviewActors) :
    (runSubviewFrames event w hs false n l a).mainAnchorX = a.mainAnchorX ∧
    (runSubviewFrames event w hs false n l a).mainVisible = a.mainVisible := by
  induction l generalizing a with
  | nil => exact ⟨rfl, rfl⟩
  | cons f t ih =>
    have h := subview_frame_no_main event w hs n f a
    have h2 := ih (on_subview_timeline_new_frame event w hs false n f a)
    simp only [runSubviewFrames, List.foldl_cons] at h2 ⊢
    exact ⟨h2.1.trans h.1, h2.2.trans h.2⟩

/-- The frame with frame_num = n_frames maps two states to the same result
as long as they agree on the fields belonging to absent actors: every field
of a present actor is overwritten with its settled end value. -/
theorem subview_frame_last_congr (event : CEvent) (w : ℝ) (hs hm : Bool)
    (n : ℕ) (X Y : SubviewActors)
    (h1 : hs = false → X.subAnchorX = Y.subAnchorX ∧ X.subVisible = Y.subVisible)
    (h2 : hm = false → X.mainAnchorX = Y.mainAnchorX ∧ X.mainVisible = Y.mainVisible) :
    on_subview_timeline_new_frame event w hs hm n n X
      = on_subview_timeline_new_frame event w hs hm n n Y := by
  cases hs with
  | true =>
    cases hm with
    | true =>
      ext
      case subAnchorX =>
        rw [(subview_frame_last_sub event w true n X).1,
            (subview_frame_last_sub event w true n Y).1]
      case subVisible =>
        rw [(subview_frame_last_sub event w true n X).2,
            (subview_frame_last_sub event w true n Y).2]
      case mainAnchorX =>
        rw [(subview_frame_last_main event w true n X).1,
            (subview_frame_last_main event w true n Y).1]
      case mainVisible =>
        rw [(subview_frame_last_main event w true n X).2,
            (subview_frame_last_main event w true n Y).2]
    | false =>
      obtain ⟨e1, e2⟩ := h2 rfl
      ext
      case subAnchorX =>
        rw [(subview_frame_last_sub event w false n X).1,
            (subview_frame_last_sub event w false n Y).1]
      case subVisible =>
        rw [(subview_frame_last_sub event w false n X).2,
            (subview_frame_last_sub event w false n Y).2]
      case mainAnchorX =>
        rw [(subview_frame_no_main event w true n n X).1,
            (subview_frame_no_main event w true n n Y).1, e1]
      case mainVisible =>
        rw [(subview_frame_no_main event w true n n X).2,
            (subview_frame_no_main event w true n n Y).2, e2]
  | false =>
    obtain ⟨d1, d2⟩ := h1 rfl
    cases hm with
    | true =>
      ext
      case subAnchorX =>
        rw [(subview_frame_no_sub event w true n n X).1,
            (subview_frame_no_sub event w true n n Y).1, d1]
      case subVisible =>
        rw [(subview_frame_no_sub event w true n n X).2,
            (subview_frame_no_sub event w true n n Y).2, d2]
      case mainAnchorX =>
        rw [(subview_frame_last_main event w false n X).1,
            (subview_frame_last_main event w false n Y).1]
      case mainVisible =>
        rw [(subview_frame_last_main event w false n X).2,
            (subview_frame_last_main event w false n Y).2]
    | false =>
      obtain ⟨e1, e2⟩ := h2 rfl
      ext
      case subAnchorX =>
        rw [(subview_frame_no_sub event w false n n X).1,
            (subview_frame_no_sub event w false n n Y).1, d1]
      case subVisible =>
        rw [(subview_frame_no_sub event w false n n X).2,
            (subview_frame_no_sub event w false n n Y).2, d2]
      case mainAnchorX =>
        rw [(subview_frame_no_main event w false n n X).1,
            (subview_frame_no_main event w false n n Y).1, e1]
      case mainVisible =>
        rw [(subview_frame_no_main event w false n n X).2,
            (subview_frame_no_main event w false n n Y).2, e2]

/-- C2: forced stop reaches the same final actor state as natural
completion.  A running subview transition (the only kind for which the
client effect pointer, and hence hd_transition_stop, is armed) that is
stopped after any frame k - the timeline is stopped, one synthetic
last-frame update with frame number n_frames is applied, then the normal
completion teardown runs - leaves both actors with exactly the final anchor
position and visibility that letting the timeline run through all frames to
natural completion produces. -/
theorem C2_forced_stop_final_state_eq_natural (event : CEvent) (w : ℝ)
    (hs hm : Bool) (n k : ℕ) (a : SubviewActors) :
    runSubviewFrames event w hs hm n (forcedStopFrames k n) a
      = runSubviewFrames event w hs hm n (naturalFrames n) a := by
  have hnat : naturalFrames n = List.range n ++ [n] := by
    simp [naturalFrames, List.range_succ]
  rw [hnat]
  unfold forcedStopFrames
  unfold runSubviewFrames
  rw [List.foldl_append, List.foldl_append]
  simp only [List.foldl_cons, List.foldl_nil]
  apply subview_frame_last_congr
  · intro h
    subst h
    exact ⟨((runSubviewFrames_no_sub event w hm n (List.range (k + 1)) a).1).trans
             ((runSubviewFrames_no_sub event w hm n (List.range n) a).1).symm,
           ((runSubviewFrames_no_sub event w hm n (List.range (k + 1)) a).2).trans
             ((runSubviewFrames_no_sub event w hm n (List.range n) a).2).symm⟩
  · intro h
    subst h
    exact ⟨((runSubviewFrames_no_main event w hs n (List.range (k + 1)) a).1).trans
             ((runSubviewFrames_no_main event w hs n (List.range n) a).1).symm,
           ((runSubviewFrames_no_main event w hs n (List.range (k + 1)) a).2).trans
             ((runSubviewFrames_no_main event w hs n (List.range n) a).2).symm⟩

/-- fsmFadeOutPrep only touches gotoState, setStateLog, drained and
effectsWaiting. -/
theorem fsmFadeOutPrep_fields (env : FsmEnv) (s : FsmState) :
    (fsmFadeOutPrep env s).direction = s.direction ∧
    (fsmFadeOutPrep env s).newDirection = s.newDirection ∧
    (fsmFadeOutPrep env s).phase = s.phase ∧
    (fsmFadeOutPrep env s).screenPortrait = s.screenPortrait ∧
    (fsmFadeOutPrep env s).reconfigs = s.reconfigs ∧
    (fsmFadeOutPrep env s).fadeLog = s.fadeLog ∧
    (fsmFadeOutPrep env s).reentryLog = s.reentryLog := by
  simp only [fsmFadeOutPrep]
  split <;> split <;> exact ⟨rfl, rfl, rfl, rfl, rfl, rfl, rfl⟩

/-- A call of the state machine in the IDLE phase performs no re-entrant
self-invocation: the result does not depend on the remaining fuel. -/
theorem fsmFuel_succ_idle (env : FsmEnv) (m : ℕ) (s : FsmState)
    (h : s.phase = .idle) : fsmFuel env (m + 1) s = fsmFuel env 1 s := by
  rcases s with ⟨dir, nd, ph, gs, ta, ti, ew, sp, rc, rs, ssl, fl, dr, rl⟩
  obtain rfl : ph = RotPhase.idle := h
  rfl

/-- fsmFadeOutPrep preserves agreement of direction and new_direction. -/
theorem fsmFadeOutPrep_dir_eq (env : FsmEnv) (s : FsmState)
    (h : s.direction = s.newDirection) :
    (fsmFadeOutPrep env s).direction = (fsmFadeOutPrep env s).newDirection := by
  rw [(fsmFadeOutPrep_fields env s).1, (fsmFadeOutPrep_fields env s).2.1]
  exact h

/-- A call of the state machine in the FADE_OUT phase with
direction = new_direction (as set up before the only re-entrant call that
can reach FADE_OUT) enters WAITING without a further re-entrant call: the
result does not depend on the remaining fuel. -/
theorem fsmFuel_succ_fadeOut_agreed (env : FsmEnv) (m : ℕ) (s : FsmState)
    (hph : s.phase = .fadeOut) (hd : s.direction = s.newDirection) :
    fsmFuel env (m + 1) s = fsmFuel env 1 s := by
  rcases s with ⟨dir, nd, ph, gs, ta, ti, ew, sp, rc, rs, ssl, fl, dr, rl⟩
  obtain rfl : ph = RotPhase.fadeOut := hph
  obtain rfl : dir = nd := hd
  simp only [fsmFuel]
  rw [if_pos (fsmFadeOutPrep_dir_eq env _ rfl),
      if_pos (fsmFadeOutPrep_dir_eq env _ rfl)]

/-- Convergence of the re-entrant trampoline: a fuel of 2 always suffices,
any further budget leaves the result unchanged. -/
theorem fsmFuel_add_two (env : FsmEnv) (n : ℕ) (s : FsmState) :
    fsmFuel env (n + 2) s = fsmFuel env 2 s := by
  rcases s with ⟨dir, nd, ph, gs, ta, ti, ew, sp, rc, rs, ssl, fl, dr, rl⟩
  cases ph with
  | idle => rfl
  | fadeOut =>
    simp only [fsmFuel]
    split
    · rfl
    · simp only [fsmWaitingCase, if_true]
  | waiting =>
    simp only [fsmFuel, fsmWaitingCase]
    split
    · rfl
    · rw [if_pos (fsmFadeOutPrep_dir_eq env _ rfl),
          if_pos (fsmFadeOutPrep_dir_eq env _ rfl)]
  | fadeIn =>
    simp only [fsmFuel]

/-- Distinct rotation directions have opposite portrait flags. -/
theorem isPortrait_of_ne (d d' : RotDir) (h : d ≠ d') :
    d.isPortrait = !d'.isPortrait := by
  cases d <;> cases d' <;> simp_all [RotDir.isPortrait]

/-- C6 counterexample: from the FADE_IN phase with direction = landscape and
new_direction = portrait (the direction changed during the fade-in), the
state machine re-invokes itself synchronously while direction still differs
from new_direction - the claim that direction has been updated to equal
new_direction before every re-entrant call is false at this input. -/
theorem C6_counterexample :
    (fsmFuel fsmTestEnv 2 fsmFadeInOverride).reentryLog
        = [(RotDir.gotoLandscape, RotDir.gotoPortrait)] ∧
    RotDir.gotoLandscape ≠ RotDir.gotoPortrait :=
  ⟨rfl, by decide⟩

/-- C6 (amended): the chain of synchronous re-invocations of
hd_transition_rotating_fsm is always finite - a nesting depth of two
suffices, and the result is independent of any additional recursion budget.
(Direction is updated before the re-entrant call only at the WAITING
fallback site; the FADE_IN restart site re-invokes precisely while
direction differs from new_direction, and the inner IDLE step performs the
update - see the counterexample.) -/
theorem C6_trampoline_terminates (env : FsmEnv) (n : ℕ) (s : FsmState) :
    fsmFuel env (n + 2) s = fsmFuel env 2 s :=
  fsmFuel_add_two env n s

/-- C3: requesting rotate-to-portrait from IDLE in landscape, with no
further requests, drives the machine through the phase sequence
IDLE, FADE_OUT, WAITING, FADE_IN, IDLE; the final direction is portrait and
hd_util_change_screen_orientation is invoked exactly once. -/
theorem C3_rotate_to_portrait_scenario (env : FsmEnv) :
    rotateScenarioStart.phase = .idle ∧
    (hd_transition_rotate_screen env true rotateScenarioStart).1 = true ∧
    (rotScen1 env).phase = .fadeOut ∧
    (rotScen2 env).phase = .waiting ∧
    (rotScen3 env).phase = .fadeIn ∧
    (rotScen4 env).phase = .idle ∧
    (rotScen4 env).direction = .gotoPortrait ∧
    (rotScen1 env).reconfigs = 0 ∧
    (rotScen4 env).reconfigs = 1 := by
  rcases env with ⟨ip, ipc⟩
  cases hb : (ip 0 || ipc 0) <;>
    simp [rotScen1, rotScen2, rotScen3, rotScen4, rotateScenarioStart,
          hd_transition_rotate_screen, fsmFuel, fsmWaitingCase,
          fsmFadeOutPrep, RotDir.isPortrait, hb]

/-- C4: in the WAITING phase a damage-ignore query always answers TRUE and
stays in WAITING; it re-arms the debounce timeout if and only if the time
elapsed since WAITING was entered is still below the configured ceiling
damage_timeout_max (in ms, compared in seconds); once the ceiling is
reached no reset is granted, and the next debounce fire (with the
direction unchanged by any new request) leaves WAITING for FADE_IN. -/
theorem C4_waiting_damage_debounce (env : FsmEnv) (mx elapsed : ℚ)
    (s : FsmState) (hw : s.phase = .waiting) :
    (hd_transition_rotate_ignore_damage mx elapsed s).1 = true ∧
    (hd_transition_rotate_ignore_damage mx elapsed s).2.phase = .waiting ∧
    ((hd_transition_rotate_ignore_damage mx elapsed s).2.resets = s.resets + 1
       ↔ elapsed < mx / 1000) ∧
    ((hd_transition_rotate_ignore_damage mx elapsed s).2.resets = s.resets
       ↔ ¬elapsed < mx / 1000) ∧
    (s.direction = s.newDirection → (fsmFuel env 2 s).phase = .fadeIn) := by
  unfold hd_transition_rotate_ignore_damage
  rw [if_pos hw]
  refine ⟨rfl, ?_, ?_, ?_, ?_⟩
  · by_cases he : elapsed < mx / 1000 <;> simp [he, hw]
  · by_cases he : elapsed < mx / 1000 <;> simp [he]
  · by_cases he : elapsed < mx / 1000 <;> simp [he]
  · intro hd
    rcases s with ⟨dir, nd, ph, gs, ta, ti, ew, sp, rc, rs, ssl, fl, dr, rl⟩
    obtain rfl : ph = RotPhase.waiting := hw
    obtain rfl : dir = nd := hd
    simp [fsmFuel, fsmWaitingCase]

/-- Witness for C4_waiting_damage_debounce: concrete WAITING state, ceiling
1000 ms, no time elapsed yet. -/
theorem C4_waiting_damage_witness :
    (hd_transition_rotate_ignore_damage 1000 0
        { phase := .waiting }).2.resets = ({ phase := .waiting } : FsmState).resets + 1 :=
  (C4_waiting_damage_debounce fsmTestEnv 1000 0 { phase := .waiting }
    rfl).2.2.1.mpr (by norm_num)

/-- C7: a rotation request for the orientation the screen already has,
arriving while the machine is IDLE (and consistent with the screen, as it
always is in reachable IDLE states - FsmInv), is rejected: the call returns
FALSE and the singleton is completely unchanged (in particular direction,
new_direction, phase, both timers and the deferred-effects list). -/
theorem C7_reject_already_active (env : FsmEnv) (gp : Bool) (s : FsmState)
    (hinv : FsmInv s) (hidle : s.phase = .idle)
    (hsame : gp = s.screenPortrait) :
    hd_transition_rotate_screen env gp s = (false, s) := by
  rcases s with ⟨dir, nd, ph, gs, ta, ti, ew, sp, rc, rs, ssl, fl, dr, rl⟩
  obtain rfl : ph = RotPhase.idle := hidle
  obtain ⟨hdn, hsp⟩ : dir = nd ∧ sp = RotDir.isPortrait dir := hinv
  subst hdn
  subst hsp
  subst hsame
  unfold hd_transition_rotate_screen
  cases dir <;> simp [RotDir.isPortrait]

/-- Witness for C7_reject_already_active: default IDLE landscape state,
landscape requested again. -/
theorem C7_reject_witness :
    hd_transition_rotate_screen fsmTestEnv false {} = (false, ({} : FsmState)) :=
  C7_reject_already_active fsmTestEnv false {} (by decide) rfl rfl

/-- C5: overlap policy of hd_transition_subview.  First conjunct: when both
endpoints of a new subview request are already mid-transition
(EffectRunning set on both), the request is dropped with no state change at
all.  Remaining conjuncts: requesting subview-push(A to B) and then
subview-push(B to C) before the first completes (A = client 0, B = 1,
C = 2) leaves exactly one allocated EffectRecord, whose subview target has
been swapped in place to C with origin still A; A keeps its flags and its
effect pointer, B's flags and effect pointer have been cleared, C's flags
and effect pointer are set. -/
theorem C5_subview_overlap_policy :
    (∀ (s : MgrState) (sv mv : ℕ) (e : CEvent) (app : Bool),
        sv ≠ mv →
        (getCl s sv).effectRunning = true →
        (getCl s mv).effectRunning = true →
        hd_transition_subview sv mv e app s = s) ∧
    ((mgrRun [.subview 1 0 .map true, .subview 2 1 .map true]).records
        = [(0, { event := .map, cclient := some 2, cclient2 := some 0,
                 hasTimeline := true, hasHmgr := true })] ∧
     (getCl (mgrRun [.subview 1 0 .map true, .subview 2 1 .map true]) 0)
        = { dontUpdate := true, effectRunning := true, effect := some 0 } ∧
     (getCl (mgrRun [.subview 1 0 .map true, .subview 2 1 .map true]) 1)
        = { dontUpdate := false, effectRunning := false, effect := none } ∧
     (getCl (mgrRun [.subview 1 0 .map true, .subview 2 1 .map true]) 2)
        = { dontUpdate := true, effectRunning := true, effect := some 0 }) := by
  constructor
  · intro s sv mv e app hne hsv hmv
    unfold hd_transition_subview
    rw [if_neg hne]
    cases app
    · rfl
    · simp [hsv, hmv]
  · refine ⟨?_, ?_, ?_, ?_⟩ <;> decide

/-- Witness for the drop clause of C5_subview_overlap_policy: a second
push(A to B) request while push(A to B) is running finds both endpoints
mid-transition and changes nothing. -/
theorem C5_subview_witness :
    hd_transition_subview 1 0 .map true (mgrRun [.subview 1 0 .map true])
      = mgrRun [.subview 1 0 .map true] :=
  C5_subview_overlap_policy.1 (mgrRun [.subview 1 0 .map true]) 1 0 .map true
    (by decide) (by decide) (by decide)

/-- C8 counterexample: 3/2 lies outside the open interval (0,1), yet
hd_transition_overshoot does not return it unmodified - the function has no
identity guard and overshoots past the value (the result exceeds 3/2). -/
theorem C8_counterexample :
    (1:ℝ) ≤ 3/2 ∧ hd_transition_overshoot (3/2) ≠ 3/2 := by
  refine ⟨by norm_num, ?_⟩
  have hfl : ⌊(3/2 : ℝ)⌋ = (1 : ℤ) := by
    rw [Int.floor_eq_iff]
    constructor <;> norm_num
  have hpi1 : (3.141592 : ℝ) < Real.pi := Real.pi_gt_d6
  have hpi2 : Real.pi < 3.141593 := Real.pi_lt_d6
  have hcarg : ((3:ℝ)/2 - ((1:ℤ):ℝ)) * 3.141592 = 1.570796 := by
    push_cast; norm_num
  have hsarg : (0.5:ℝ) * 3.141592 * (1 - ((3:ℝ)/2 - ((1:ℤ):ℝ))) = 0.785398 := by
    push_cast; norm_num
  have hA : Real.cos 1.570796 < 0.000001 := by
    have h1 : Real.cos (1.570796:ℝ) = Real.sin (Real.pi/2 - 1.570796) :=
      (Real.sin_pi_div_two_sub _).symm
    have h2 : (0:ℝ) < Real.pi/2 - 1.570796 := by linarith
    calc Real.cos (1.570796:ℝ) = Real.sin (Real.pi/2 - 1.570796) := h1
    _ < Real.pi/2 - 1.570796 := Real.sin_lt h2
    _ < 0.000001 := by linarith
  have hA2 : (-1:ℝ) ≤ Real.cos 1.570796 := Real.neg_one_le_cos _
  have hB0 : (0:ℝ) ≤ Real.sin 0.785398 := by
    apply Real.sin_nonneg_of_nonneg_of_le_pi
    · norm_num
    · linarith
  have hB1 : Real.sin (0.785398:ℝ) ≤ 1 := Real.sin_le_one _
  have hlt : (3/2:ℝ) < hd_transition_overshoot (3/2) := by
    simp only [hd_transition_overshoot]
    rw [if_pos (by norm_num : (0:ℝ) ≤ 3/2), hfl, hcarg, hsarg]
    push_cast
    have hAB : Real.cos 1.570796 * Real.sin 0.785398
        ≤ 0.000001 * Real.sin 0.785398 :=
      mul_le_mul_of_nonneg_right (le_of_lt hA) hB0
    nlinarith [hAB, hB0, hB1]
  exact ne_of_gt hlt

/-- C8 (amended): the three guarded easing functions - smooth_ramp, ease_in,
ease_out - are pure functions of their argument and return it unmodified
outside the open interval (0,1); hd_transition_overshoot does not satisfy
this contract (see the counterexample). -/
theorem C8_easing_identity_outside_unit (x : ℝ) (hx : ¬(0 < x ∧ x < 1)) :
    hd_transition_smooth_ramp x = x ∧ hd_transition_ease_in x = x ∧
    hd_transition_ease_out x = x := by
  unfold hd_transition_smooth_ramp hd_transition_ease_in hd_transition_ease_out
  rw [if_neg hx, if_neg hx, if_neg hx]
  exact ⟨rfl, rfl, rfl⟩

/-- Witness for C8_easing_identity_outside_unit at x = 2. -/
theorem C8_easing_identity_witness :
    hd_transition_smooth_ramp 2 = 2 ∧ hd_transition_ease_in 2 = 2 ∧
    hd_transition_ease_out 2 = 2 :=
  C8_easing_identity_outside_unit 2 (by norm_num)

/-- C9 counterexample: for first_part = false, goto_portrait = false (fading
back toward landscape) the condition (first_part == goto_portrait) is true,
yet the source negates the angle there - contradicting the claim that the
sign is flipped exactly when the condition is false. -/
theorem C9_counterexample :
    ((false == false) = true) ∧
    hd_transition_fade_and_rotate_angle false false 40 = -40 ∧
    ((-40 : ℚ) ≠ 40) := by
  refine ⟨rfl, ?_, by norm_num⟩
  unfold hd_transition_fade_and_rotate_angle
  norm_num

/-- C9 (amended): the configured rotation angle is multiplied by -1 exactly
when first_part == goto_portrait is TRUE (fade-out toward portrait, or
fade-in back toward landscape), and left unchanged exactly when the
condition is false. -/
theorem C9_angle_negated_iff (first_part goto_portrait : Bool) (a : ℚ)
    (ha : a ≠ 0) :
    (hd_transition_fade_and_rotate_angle first_part goto_portrait a = -a
       ↔ (first_part == goto_portrait) = true) ∧
    (hd_transition_fade_and_rotate_angle first_part goto_portrait a = a
       ↔ (first_part == goto_portrait) = false) := by
  have h1 : a * (-1) = -a := by ring
  have h2 : -a ≠ a := fun h => ha (by linarith)
  unfold hd_transition_fade_and_rotate_angle
  cases first_part <;> cases goto_portrait <;>
    simp [h1, h2, h2.symm]

/-- Witness for C9_angle_negated_iff at (true, true, 40). -/
theorem C9_angle_negated_witness :
    hd_transition_fade_and_rotate_angle true true 40 = -40 :=
  (C9_angle_negated_iff true true 40 (by norm_num)).1.mpr rfl

/-- C10 counterexample: hd_transition_close_app starts its timeline without
ever applying a first animation frame synchronously (no first-frame call
occurs in its side-effect sequence, though the timeline is started). -/
theorem C10_counterexample :
    TransitionAct.firstFrame ∉ closeAppSideEffects ∧
    TransitionAct.timelineStart ∈ closeAppSideEffects := by
  decide

/-- C10 (amended): of the public transition constructors, popup, fade,
notification and subview apply the first animation frame synchronously
before starting their timer; app-close does not (it starts its timeline
directly after incrementing the effect counter). -/
theorem C10_first_frame_before_timer :
    appliesFirstFrameBeforeTimer popupSideEffects ∧
    appliesFirstFrameBeforeTimer fadeSideEffects ∧
    appliesFirstFrameBeforeTimer notificationSideEffects ∧
    appliesFirstFrameBeforeTimer subviewSideEffects := by
  decide

/-! ### Basic facts about the manager-state primitives -/

@[simp] theorem occ_nil (r : ℕ) : occ r [] = 0 := rfl

@[simp] theorem occ_cons (r x : ℕ) (l : List ℕ) :
    occ r (x :: l) = (if x = r then 1 else 0) + occ r l := rfl

@[simp] theorem occ_append (r : ℕ) (l1 l2 : List ℕ) :
    occ r (l1 ++ l2) = occ r l1 + occ r l2 := by
  induction l1 with
  | nil => simp
  | cons x t ih => simp [ih]; omega

@[simp] theorem assq_nil {α : Type} (k : ℕ) : assq k ([] : List (ℕ × α)) = none := rfl

@[simp] theorem assq_cons {α : Type} (k a : ℕ) (b : α) (l : List (ℕ × α)) :
    assq k ((a, b) :: l) = if k = a then some b else assq k l := rfl

theorem assq_eraseKey {α : Type} (r k : ℕ) (l : List (ℕ × α)) :
    assq k (eraseKey r l) = if k = r then none else assq k l := by
  induction l with
  | nil => simp [eraseKey]
  | cons p t ih =>
    rcases p with ⟨a, b⟩
    unfold eraseKey
    by_cases har : a = r
    · subst har
      rw [if_pos rfl, ih]
      by_cases hk : k = a <;> simp [hk]
    · rw [if_neg har, assq_cons, ih]
      by_cases hka : k = a
      · subst hka
        simp [har]
      · simp [hka]

@[simp] theorem getCl_setCl (s : MgrState) (c c' : ℕ) (v : ClientState) :
    getCl (setCl s c v) c' = if c' = c then v else getCl s c' := by
  by_cases h : c' = c <;> simp [getCl, setCl, h]

@[simp] theorem setCl_records (s : MgrState) (c : ℕ) (v : ClientState) :
    (setCl s c v).records = s.records := rfl

@[simp] theorem setCl_waiting (s : MgrState) (c : ℕ) (v : ClientState) :
    (setCl s c v).waiting = s.waiting := rfl

@[simp] theorem setCl_completedLog (s : MgrState) (c : ℕ) (v : ClientState) :
    (setCl s c v).completedLog = s.completedLog := rfl

@[simp] theorem setCl_decrementLog (s : MgrState) (c : ℕ) (v : ClientState) :
    (setCl s c v).decrementLog = s.decrementLog := rfl

@[simp] theorem setCl_nextId (s : MgrState) (c : ℕ) (v : ClientState) :
    (setCl s c v).nextId = s.nextId := rfl

@[simp] theorem getCl_putRec (s : MgrState) (r : ℕ) (d : EffectRec) (c : ℕ) :
    getCl (putRec s r d) c = getCl s c := rfl

@[simp] theorem putRec_waiting (s : MgrState) (r : ℕ) (d : EffectRec) :
    (putRec s r d).waiting = s.waiting := rfl

@[simp] theorem putRec_completedLog (s : MgrState) (r : ℕ) (d : EffectRec) :
    (putRec s r d).completedLog = s.completedLog := rfl

@[simp] theorem putRec_decrementLog (s : MgrState) (r : ℕ) (d : EffectRec) :
    (putRec s r d).decrementLog = s.decrementLog := rfl

@[simp] theorem putRec_nextId (s : MgrState) (r : ℕ) (d : EffectRec) :
    (putRec s r d).nextId = s.nextId := rfl

theorem assq_putRec (s : MgrState) (r : ℕ) (d : EffectRec) (k : ℕ) :
    assq k (putRec s r d).records
      = if k = r then some d else assq k s.records := by
  by_cases h : k = r <;> simp [putRec, h, assq_eraseKey]

/-! ### Characterisation of hd_transition_completed -/

/-- Every invocation of the teardown routine appends exactly its record id
to the teardown log. -/
theorem completed_completedLog (r : ℕ) (s : MgrState) :
    (hd_transition_completed r s).completedLog = s.completedLog ++ [r] := by
  unfold hd_transition_completed
  cases hrec : assq r s.records with
  | none => rfl
  | some d =>
    cases hc1 : d.cclient <;> cases hc2 : d.cclient2 <;>
      cases hh : d.hasHmgr <;> simp [hc1, hc2, hh]

theorem completed_waiting (r : ℕ) (s : MgrState) :
    (hd_transition_completed r s).waiting = s.waiting := by
  unfold hd_transition_completed
  cases hrec : assq r s.records with
  | none => rfl
  | some d =>
    cases hc1 : d.cclient <;> cases hc2 : d.cclient2 <;>
      cases hh : d.hasHmgr <;> simp [hc1, hc2, hh]

theorem completed_nextId (r : ℕ) (s : MgrState) :
    (hd_transition_completed r s).nextId = s.nextId := by
  unfold hd_transition_completed
  cases hrec : assq r s.records with
  | none => rfl
  | some d =>
    cases hc1 : d.cclient <;> cases hc2 : d.cclient2 <;>
      cases hh : d.hasHmgr <;> simp [hc1, hc2, hh]

/-- Teardown removes exactly its own record. -/
theorem completed_records (r k : ℕ) (s : MgrState) :
    assq k (hd_transition_completed r s).records
      = if k = r then none else assq k s.records := by
  unfold hd_transition_completed
  cases hrec : assq r s.records with
  | none =>
    by_cases hk : k = r
    · subst hk
      simp [hrec]
    · simp [hk]
  | some d =>
    cases hc1 : d.cclient <;> cases hc2 : d.cclient2 <;>
      cases hh : d.hasHmgr <;> simp [hc1, hc2, hh] <;>
        exact assq_eraseKey r k s.records

/-- Teardown either leaves a client's effect pointer alone or clears it. -/
theorem completed_effect (r c : ℕ) (s : MgrState) :
    (getCl (hd_transition_completed r s) c).effect = (getCl s c).effect ∨
    (getCl (hd_transition_completed r s) c).effect = none := by
  unfold hd_transition_completed
  cases hrec : assq r s.records with
  | none => exact Or.inl rfl
  | some d =>
    cases hc1 : d.cclient <;> cases hc2 : d.cclient2 <;>
      cases hh : d.hasHmgr <;>
        simp [hc1, hc2, hh, getCl, setCl] <;> split_ifs <;> simp

/-- Teardown clears the effect pointer of every client its record
references. -/
theorem completed_clears_own (r c : ℕ) (s : MgrState) (d : EffectRec)
    (hrec : assq r s.records = some d)
    (hc : d.cclient = some c ∨ d.cclient2 = some c) :
    (getCl (hd_transition_completed r s) c).effect = none := by
  unfold hd_transition_completed
  rw [hrec]
  cases hc with
  | inl h1 =>
    cases hc2 : d.cclient2 <;> cases hh : d.hasHmgr <;>
      simp [h1, hc2, hh, getCl, setCl] <;> split_ifs <;> simp
  | inr h2 =>
    cases hc1 : d.cclient <;> cases hh : d.hasHmgr <;>
      simp [h2, hc1, hh, getCl, setCl] <;> split_ifs <;> simp

/-- Teardown appends its id to the decrement log at most once (exactly when
data->hmgr was set), and nothing else. -/
theorem completed_decrementLog (r k : ℕ) (s : MgrState) :
    occ k (hd_transition_completed r s).decrementLog
      ≤ occ k s.decrementLog + (if k = r then 1 else 0) := by
  unfold hd_transition_completed
  cases hrec : assq r s.records with
  | none => simp
  | some d =>
    cases hc1 : d.cclient <;> cases hc2 : d.cclient2 <;>
      cases hh : d.hasHmgr <;> simp [hc1, hc2, hh] <;> split_ifs <;> omega

/-! ### The teardown fold performed by the FADE_OUT drain -/

theorem foldl_completed_completedLog (l : List ℕ) (s : MgrState) :
    (l.foldl (fun st r => hd_transition_completed r st) s).completedLog
      = s.completedLog ++ l := by
  induction l generalizing s with
  | nil => simp
  | cons a t ih =>
    rw [List.foldl_cons, ih, completed_completedLog]
    simp

theorem foldl_completed_waiting (l : List ℕ) (s : MgrState) :
    (l.foldl (fun st r => hd_transition_completed r st) s).waiting
      = s.waiting := by
  induction l generalizing s with
  | nil => rfl
  | cons a t ih => rw [List.foldl_cons, ih, completed_waiting]

theorem foldl_completed_nextId (l : List ℕ) (s : MgrState) :
    (l.foldl (fun st r => hd_transition_completed r st) s).nextId
      = s.nextId := by
  induction l generalizing s with
  | nil => rfl
  | cons a t ih => rw [List.foldl_cons, ih, completed_nextId]

theorem foldl_completed_records (l : List ℕ) (k : ℕ) (s : MgrState) :
    assq k (l.foldl (fun st r => hd_transition_completed r st) s).records
      = if occ k l = 0 then assq k s.records else none := by
  induction l generalizing s with
  | nil => simp
  | cons a t ih =>
    rw [List.foldl_cons, ih, completed_records]
    by_cases hka : k = a
    · subst hka
      simp
    · have : ¬(a = k) := fun e => hka e.symm
      simp [this, hka]

theorem foldl_completed_effect (l : List ℕ) (c : ℕ) (s : MgrState) :
    (getCl (l.foldl (fun st r => hd_transition_completed r st) s) c).effect
        = (getCl s c).effect ∨
    (getCl (l.foldl (fun st r => hd_transition_completed r st) s) c).effect
        = none := by
  induction l generalizing s with
  | nil => exact Or.inl rfl
  | cons a t ih =>
    rw [List.foldl_cons]
    rcases ih (hd_transition_completed a s) with h | h
    · rcases completed_effect a c s with h2 | h2
      · exact Or.inl (h.trans h2)
      · exact Or.inr (h.trans h2)
    · exact Or.inr h

theorem foldl_completed_decrementLog (l : List ℕ) (k : ℕ) (s : MgrState) :
    occ k (l.foldl (fun st r => hd_transition_completed r st) s).decrementLog
      ≤ occ k s.decrementLog + occ k l := by
  induction l generalizing s with
  | nil => simp
  | cons a t ih =>
    rw [List.foldl_cons]
    have h1 := ih (hd_transition_completed a s)
    have h2 := completed_decrementLog a k s
    rw [occ_cons]
    by_cases hka : a = k
    · subst hka
      rw [if_pos rfl] at h2
      rw [if_pos rfl]
      omega
    · rw [if_neg (fun e => hka e.symm)] at h2
      rw [if_neg hka]
      omega

/-! ### Invariant preservation -/

/-- In an invariant state, allocated records sit below the id counter. -/
theorem alive_lt_nextId (s : MgrState) (h : MgrInv s) (r : ℕ) (d : EffectRec)
    (hrec : assq r s.records = some d) : r < s.nextId := by
  by_contra hge
  push_neg at hge
  have := (h.fresh r hge).1
  rw [this] at hrec
  cases hrec

/-- Teardown of an allocated record that is not in the deferred list (the
situation of the stop path and of the natural-completion path) preserves
the invariant. -/
theorem mgrInv_completed (r : ℕ) (s : MgrState) (h : MgrInv s)
    (d : EffectRec) (hrec : assq r s.records = some d)
    (hwait : occ r s.waiting = 0) :
    MgrInv (hd_transition_completed r s) := by
  have hlog : occ r s.completedLog = 0 := h.aliveUnlogged r d hrec
  have hlt : r < s.nextId := alive_lt_nextId s h r d hrec
  constructor
  · intro r'
    rw [completed_completedLog, occ_append]
    have := h.logOnce r'
    by_cases hr : r' = r
    · subst hr
      simp [hlog]
    · have hrr : ¬(r = r') := fun e => hr e.symm
      have : occ r' [r] = 0 := by simp [hrr]
      omega
  · intro r' d' hrec'
    rw [completed_records] at hrec'
    by_cases hr : r' = r
    · rw [if_pos hr] at hrec'
      cases hrec'
    · rw [if_neg hr] at hrec'
      rw [completed_completedLog, occ_append]
      have h0 := h.aliveUnlogged r' d' hrec'
      have hrr : ¬(r = r') := fun e => hr e.symm
      have : occ r' [r] = 0 := by simp [hrr]
      omega
  · intro r' hr'
    rw [completed_waiting] at hr'
    obtain ⟨d', hd', ht⟩ := h.waitingAlive r' hr'
    have hrr : r' ≠ r := by
      intro e
      subst e
      omega
    refine ⟨d', ?_, ht⟩
    rw [completed_records, if_neg hrr]
    exact hd'
  · intro r'
    rw [completed_waiting]
    exact h.waitingOnce r'
  · intro c r' hptr
    have hpost := hptr
    rcases completed_effect r c s with he | he
    · rw [he] at hptr
      obtain ⟨⟨d', hd', hlist⟩, hw⟩ := h.effectPtr c r' hptr
      have hrr : r' ≠ r := by
        intro e
        subst e
        have hdd : d' = d := by
          rw [hd'] at hrec
          exact Option.some.inj hrec
        have hnone := completed_clears_own r' c s d hrec (hdd ▸ hlist)
        rw [hnone] at hpost
        cases hpost
      refine ⟨⟨d', ?_, hlist⟩, ?_⟩
      · rw [completed_records, if_neg hrr]
        exact hd'
      · rw [completed_waiting]
        exact hw
    · rw [he] at hpost
      cases hpost
  · intro r' hge
    rw [completed_nextId] at hge
    obtain ⟨ha, hw, hl, hp⟩ := h.fresh r' hge
    refine ⟨?_, ?_, ?_, ?_⟩
    · rw [completed_records]
      by_cases hr : r' = r <;> simp [hr, ha]
    · rw [completed_waiting]
      exact hw
    · rw [completed_completedLog, occ_append]
      have hrr : occ r' [r] = 0 := by
        have : ¬(r = r') := by omega
        simp [this]
      omega
    · intro c hc
      rcases completed_effect r c s with he | he
      · rw [he] at hc
        exact hp c hc
      · rw [he] at hc
        cases hc
  · intro r'
    rw [completed_completedLog, occ_append]
    have h1 := completed_decrementLog r r' s
    have h2 := h.decLe r'
    by_cases hr : r' = r
    · subst hr
      rw [if_pos rfl] at h1
      have h3 : occ r' [r'] = 1 := by simp
      omega
    · rw [if_neg hr] at h1
      have hrr : ¬(r = r') := fun e => hr e.symm
      have h3 : occ r' [r] = 0 := by simp [hrr]
      omega

/-- The FADE_OUT drain preserves the invariant: each waiting record is
torn down exactly once and the deferred list is emptied. -/
theorem mgrInv_drain (s : MgrState) (h : MgrInv s) :
    MgrInv (drainEffectsWaiting s) := by
  unfold drainEffectsWaiting
  constructor
  · intro r'
    simp only [foldl_completed_completedLog, occ_append]
    have hlo := h.logOnce r'
    have hwo := h.waitingOnce r'
    by_cases hw : occ r' s.waiting = 0
    · omega
    · have hpos : 0 < occ r' s.waiting := Nat.pos_of_ne_zero hw
      obtain ⟨d', hd', _⟩ := h.waitingAlive r' hpos
      have := h.aliveUnlogged r' d' hd'
      omega
  · intro r' d' hrec'
    simp only [foldl_completed_records] at hrec'
    simp only [foldl_completed_completedLog, occ_append]
    by_cases hw : occ r' s.waiting = 0
    · rw [if_pos hw] at hrec'
      have := h.aliveUnlogged r' d' hrec'
      omega
    · rw [if_neg hw] at hrec'
      cases hrec'
  · intro r' hr'
    simp at hr'
  · intro r'
    simp
  · intro c r' hptr
    have hptr' : (getCl (s.waiting.foldl
        (fun st r => hd_transition_completed r st) s) c).effect = some r' := hptr
    rcases foldl_completed_effect s.waiting c s with he | he
    · rw [he] at hptr'
      obtain ⟨⟨d', hd', hlist⟩, hw⟩ := h.effectPtr c r' hptr'
      refine ⟨⟨d', ?_, hlist⟩, ?_⟩
      · show assq r' (s.waiting.foldl
            (fun st r => hd_transition_completed r st) s).records = some d'
        rw [foldl_completed_records, if_pos hw]
        exact hd'
      · simp
    · rw [he] at hptr'
      cases hptr'
  · intro r' hge
    have hge' : s.nextId ≤ r' := by
      rwa [show ({ s.waiting.foldl (fun st r => hd_transition_completed r st) s
        with waiting := [] } : MgrState).nextId
          = s.nextId from foldl_completed_nextId s.waiting s] at hge
    obtain ⟨ha, hw, hl, hp⟩ := h.fresh r' hge'
    refine ⟨?_, ?_, ?_, ?_⟩
    · show assq r' (s.waiting.foldl
          (fun st r => hd_transition_completed r st) s).records = none
      rw [foldl_completed_records, if_pos hw]
      exact ha
    · simp
    · show occ r' (s.waiting.foldl
          (fun st r => hd_transition_completed r st) s).completedLog = 0
      rw [foldl_completed_completedLog, occ_append]
      omega
    · intro c hc
      have hc' : (getCl (s.waiting.foldl
          (fun st r => hd_transition_completed r st) s) c).effect = some r' := hc
      rcases foldl_completed_effect s.waiting c s with he | he
      · rw [he] at hc'
        exact hp c hc'
      · rw [he] at hc'
        cases hc'
  · intro r'
    show occ r' (s.waiting.foldl
        (fun st r => hd_transition_completed r st) s).decrementLog
      ≤ occ r' (s.waiting.foldl
        (fun st r => hd_transition_completed r st) s).completedLog
    rw [foldl_completed_completedLog, occ_append]
    have h1 := foldl_completed_decrementLog s.waiting r' s
    have h2 := h.decLe r'
    omega

/-- Starting a plain client effect (popup/fade/close-app/notification once
their preconditions passed) preserves the invariant. -/
theorem mgrInv_startClientEffect (c : ℕ) (e : CEvent) (s : MgrState)
    (h : MgrInv s) : MgrInv (startClientEffect c e s) := by
  simp only [startClientEffect]
  constructor
  · exact h.logOnce
  · intro r' d' hrec'
    simp only [setCl_records, assq_cons] at hrec'
    by_cases hr : r' = s.nextId
    · subst hr
      exact (h.fresh s.nextId le_rfl).2.2.1
    · rw [if_neg hr] at hrec'
      exact h.aliveUnlogged r' d' hrec'
  · intro r' hpos
    obtain ⟨d', hd', ht⟩ := h.waitingAlive r' hpos
    have hlt := alive_lt_nextId s h r' d' hd'
    refine ⟨d', ?_, ht⟩
    simp only [setCl_records, assq_cons]
    rw [if_neg (by omega)]
    exact hd'
  · exact h.waitingOnce
  · intro c' r' hptr
    rw [getCl_setCl] at hptr
    have hpre : (getCl s c').effect = some r' := by
      by_cases hc' : c' = c
      · rw [if_pos hc'] at hptr
        subst hc'
        exact hptr
      · rw [if_neg hc'] at hptr
        exact hptr
    obtain ⟨⟨d', hd', hlist⟩, hw⟩ := h.effectPtr c' r' hpre
    have hlt := alive_lt_nextId s h r' d' hd'
    refine ⟨⟨d', ?_, hlist⟩, hw⟩
    simp only [setCl_records, assq_cons]
    rw [if_neg (by omega)]
    exact hd'
  · intro r' hge
    have hgt : s.nextId + 1 ≤ r' := hge
    obtain ⟨ha, hw, hl, hp⟩ := h.fresh r' (by omega)
    refine ⟨?_, hw, hl, ?_⟩
    · simp only [setCl_records, assq_cons]
      rw [if_neg (by omega)]
      exact ha
    · intro c' hc'
      rw [getCl_setCl] at hc'
      by_cases he : c' = c
      · rw [if_pos he] at hc'
        exact hp c hc'
      · rw [if_neg he] at hc'
        exact hp c' hc'
  · exact h.decLe

/-- hd_transition_close_app_before_rotate preserves the invariant: the new
record is fresh, timeline-less, appended once to the deferred list, and no
effect pointer is armed for it. -/
theorem mgrInv_closeAppBeforeRotate (c : ℕ) (s : MgrState)
    (h : MgrInv s) : MgrInv (hd_transition_close_app_before_rotate c s) := by
  simp only [hd_transition_close_app_before_rotate]
  constructor
  · exact h.logOnce
  · intro r' d' hrec'
    simp only [setCl_records, assq_cons] at hrec'
    by_cases hr : r' = s.nextId
    · subst hr
      exact (h.fresh s.nextId le_rfl).2.2.1
    · rw [if_neg hr] at hrec'
      exact h.aliveUnlogged r' d' hrec'
  · intro r' hpos
    have hpos' : 0 < occ r' (s.waiting ++ [s.nextId]) := hpos
    rw [occ_append] at hpos'
    simp only [setCl_records, assq_cons]
    by_cases hr : r' = s.nextId
    · subst hr
      exact ⟨_, by rw [if_pos rfl], rfl⟩
    · have hz : occ r' [s.nextId] = 0 := by
        have : ¬(s.nextId = r') := fun h2 => hr h2.symm
        simp [this]
      obtain ⟨d', hd', ht⟩ := h.waitingAlive r' (by omega)
      have hlt := alive_lt_nextId s h r' d' hd'
      refine ⟨d', ?_, ht⟩
      rw [if_neg hr]
      exact hd'
  · intro r'
    show occ r' (s.waiting ++ [s.nextId]) ≤ 1
    rw [occ_append]
    have hwo := h.waitingOnce r'
    by_cases hr : r' = s.nextId
    · subst hr
      have h0 := (h.fresh s.nextId le_rfl).2.1
      have h1 : occ s.nextId [s.nextId] = 1 := by simp
      omega
    · have hz : occ r' [s.nextId] = 0 := by
        have : ¬(s.nextId = r') := fun h2 => hr h2.symm
        simp [this]
      omega
  · intro c' r' hptr
    rw [getCl_setCl] at hptr
    have hpre : (getCl s c').effect = some r' := by
      by_cases hc' : c' = c
      · rw [if_pos hc'] at hptr
        subst hc'
        exact hptr
      · rw [if_neg hc'] at hptr
        exact hptr
    obtain ⟨⟨d', hd', hlist⟩, hw⟩ := h.effectPtr c' r' hpre
    have hlt := alive_lt_nextId s h r' d' hd'
    refine ⟨⟨d', ?_, hlist⟩, ?_⟩
    · simp only [setCl_records, assq_cons]
      rw [if_neg (by omega)]
      exact hd'
    · show occ r' (s.waiting ++ [s.nextId]) = 0
      rw [occ_append]
      have hz : occ r' [s.nextId] = 0 := by
        simp [show ¬(s.nextId = r') by omega]
      omega
  · intro r' hge
    have hgt : s.nextId + 1 ≤ r' := hge
    obtain ⟨ha, hw, hl, hp⟩ := h.fresh r' (by omega)
    have hne : r' ≠ s.nextId := by omega
    refine ⟨?_, ?_, hl, ?_⟩
    · simp only [setCl_records, assq_cons]
      rw [if_neg hne]
      exact ha
    · show occ r' (s.waiting ++ [s.nextId]) = 0
      rw [occ_append]
      have hz : occ r' [s.nextId] = 0 := by
        have : ¬(s.nextId = r') := fun h2 => hne h2.symm
        simp [this]
      omega
    · intro c' hc'
      rw [getCl_setCl] at hc'
      by_cases he : c' = c
      · rw [if_pos he] at hc'
        exact hp c hc'
      · rw [if_neg he] at hc'
        exact hp c' hc'
  · exact h.decLe

/-- The record created by hd_transition_fade_and_rotate preserves the
invariant. -/
theorem mgrInv_startFadeRotateEffect (e : CEvent) (s : MgrState)
    (h : MgrInv s) : MgrInv (startFadeRotateEffect e s) := by
  simp only [startFadeRotateEffect]
  constructor
  · exact h.logOnce
  · intro r' d' hrec'
    simp only [assq_cons] at hrec'
    by_cases hr : r' = s.nextId
    · subst hr
      exact (h.fresh s.nextId le_rfl).2.2.1
    · rw [if_neg hr] at hrec'
      exact h.aliveUnlogged r' d' hrec'
  · intro r' hpos
    obtain ⟨d', hd', ht⟩ := h.waitingAlive r' hpos
    have hlt := alive_lt_nextId s h r' d' hd'
    refine ⟨d', ?_, ht⟩
    simp only [assq_cons]
    rw [if_neg (by omega)]
    exact hd'
  · exact h.waitingOnce
  · intro c' r' hptr
    obtain ⟨⟨d', hd', hlist⟩, hw⟩ := h.effectPtr c' r' hptr
    have hlt := alive_lt_nextId s h r' d' hd'
    refine ⟨⟨d', ?_, hlist⟩, hw⟩
    simp only [assq_cons]
    rw [if_neg (by omega)]
    exact hd'
  · intro r' hge
    have hgt : s.nextId + 1 ≤ r' := hge
    obtain ⟨ha, hw, hl, hp⟩ := h.fresh r' (by omega)
    refine ⟨?_, hw, hl, hp⟩
    simp only [assq_cons]
    rw [if_neg (by omega)]
    exact ha
  · exact h.decLe

/-- The subview swap of an effect's target (mainview branch of
hd_transition_subview) preserves the invariant. -/
theorem mgrInv_subview_swap_main (sv mv r : ℕ) (d : EffectRec)
    (s : MgrState) (h : MgrInv s)
    (hptr : (getCl s mv).effect = some r)
    (hrec : assq r s.records = some d)
    (hcc : d.cclient = some mv) :
    MgrInv (setCl
      (putRec
        (setCl s mv
          { getCl s mv with
            effect := none, dontUpdate := false, effectRunning := false })
        r { d with cclient := some sv })
      sv
      { getCl (putRec
          (setCl s mv
            { getCl s mv with
              effect := none, dontUpdate := false, effectRunning := false })
          r { d with cclient := some sv }) sv with
        dontUpdate := true, effectRunning := true, effect := some r }) := by
  obtain ⟨⟨d0, hd0, hlist0⟩, hwr⟩ := h.effectPtr mv r hptr
  have hlt : r < s.nextId := alive_lt_nextId s h r d hrec
  constructor
  · exact h.logOnce
  · intro r' d' hrec'
    rw [setCl_records, assq_putRec] at hrec'
    by_cases hr : r' = r
    · subst hr
      exact h.aliveUnlogged r' d hrec
    · rw [if_neg hr] at hrec'
      exact h.aliveUnlogged r' d' hrec'
  · intro r' hpos
    have hpos' : 0 < occ r' s.waiting := hpos
    obtain ⟨d', hd', ht⟩ := h.waitingAlive r' hpos'
    have hne : r' ≠ r := by
      intro hx
      subst hx
      omega
    refine ⟨d', ?_, ht⟩
    rw [setCl_records, assq_putRec, if_neg hne]
    exact hd'
  · exact h.waitingOnce
  · intro c' r' hptr'
    rw [getCl_setCl] at hptr'
    by_cases hcsv : c' = sv
    · rw [if_pos hcsv] at hptr'
      have heq : some r = some r' := hptr'
      obtain rfl : r = r' := Option.some.inj heq
      refine ⟨⟨{ d with cclient := some sv }, ?_, Or.inl (by rw [hcsv])⟩, hwr⟩
      rw [setCl_records, assq_putRec, if_pos rfl]
    · rw [if_neg hcsv, getCl_putRec, getCl_setCl] at hptr'
      by_cases hcmv : c' = mv
      · rw [if_pos hcmv] at hptr'
        simp at hptr'
      · rw [if_neg hcmv] at hptr'
        obtain ⟨⟨d', hd', hlist'⟩, hw'⟩ := h.effectPtr c' r' hptr'
        by_cases hr : r' = r
        · subst hr
          have hdd : d' = d := by
            rw [hd'] at hrec
            exact Option.some.inj hrec
          have hlist2 : d.cclient2 = some c' := by
            rcases hlist' with hx | hx
            · rw [hdd, hcc] at hx
              exact absurd (Option.some.inj hx).symm hcmv
            · rw [hdd] at hx
              exact hx
          refine ⟨⟨{ d with cclient := some sv }, ?_, Or.inr hlist2⟩, hw'⟩
          rw [setCl_records, assq_putRec, if_pos rfl]
        · refine ⟨⟨d', ?_, hlist'⟩, hw'⟩
          rw [setCl_records, assq_putRec, if_neg hr]
          exact hd'
  · intro r' hge
    have hge' : s.nextId ≤ r' := hge
    obtain ⟨ha, hw, hl, hp⟩ := h.fresh r' hge'
    refine ⟨?_, hw, hl, ?_⟩
    · rw [setCl_records, assq_putRec, if_neg (by omega)]
      exact ha
    · intro c' hc'
      rw [getCl_setCl] at hc'
      by_cases hcsv : c' = sv
      · rw [if_pos hcsv] at hc'
        have heq : some r = some r' := hc'
        have := Option.some.inj heq
        omega
      · rw [if_neg hcsv, getCl_putRec, getCl_setCl] at hc'
        by_cases hcmv : c' = mv
        · rw [if_pos hcmv] at hc'
          simp at hc'
        · rw [if_neg hcmv] at hc'
          exact hp c' hc'
  · exact h.decLe

/-- The subview swap of an effect's origin (subview branch of
hd_transition_subview, unmap case) preserves the invariant. -/
theorem mgrInv_subview_swap_sub (sv mv r : ℕ) (d : EffectRec)
    (s : MgrState) (h : MgrInv s)
    (hptr : (getCl s sv).effect = some r)
    (hrec : assq r s.records = some d)
    (hcc : d.cclient2 = some sv) :
    MgrInv (setCl
      (putRec
        (setCl s sv
          { getCl s sv with
            effect := none, dontUpdate := false, effectRunning := false })
        r { d with cclient2 := some mv })
      mv
      { getCl (putRec
          (setCl s sv
            { getCl s sv with
              effect := none, dontUpdate := false, effectRunning := false })
          r { d with cclient2 := some mv }) mv with
        dontUpdate := true, effectRunning := true, effect := some r }) := by
  obtain ⟨⟨d0, hd0, hlist0⟩, hwr⟩ := h.effectPtr sv r hptr
  have hlt : r < s.nextId := alive_lt_nextId s h r d hrec
  constructor
  · exact h.logOnce
  · intro r' d' hrec'
    rw [setCl_records, assq_putRec] at hrec'
    by_cases hr : r' = r
    · subst hr
      exact h.aliveUnlogged r' d hrec
    · rw [if_neg hr] at hrec'
      exact h.aliveUnlogged r' d' hrec'
  · intro r' hpos
    have hpos' : 0 < occ r' s.waiting := hpos
    obtain ⟨d', hd', ht⟩ := h.waitingAlive r' hpos'
    have hne : r' ≠ r := by
      intro hx
      subst hx
      omega
    refine ⟨d', ?_, ht⟩
    rw [setCl_records, assq_putRec, if_neg hne]
    exact hd'
  · exact h.waitingOnce
  · intro c' r' hptr'
    rw [getCl_setCl] at hptr'
    by_cases hcmv : c' = mv
    · rw [if_pos hcmv] at hptr'
      have heq : some r = some r' := hptr'
      obtain rfl : r = r' := Option.some.inj heq
      refine ⟨⟨{ d with cclient2 := some mv }, ?_, Or.inr (by rw [hcmv])⟩, hwr⟩
      rw [setCl_records, assq_putRec, if_pos rfl]
    · rw [if_neg hcmv, getCl_putRec, getCl_setCl] at hptr'
      by_cases hcsv : c' = sv
      · rw [if_pos hcsv] at hptr'
        simp at hptr'
      · rw [if_neg hcsv] at hptr'
        obtain ⟨⟨d', hd', hlist'⟩, hw'⟩ := h.effectPtr c' r' hptr'
        by_cases hr : r' = r
        · subst hr
          have hdd : d' = d := by
            rw [hd'] at hrec
            exact Option.some.inj hrec
          have hlist2 : d.cclient = some c' := by
            rcases hlist' with hx | hx
            · rw [hdd] at hx
              exact hx
            · rw [hdd, hcc] at hx
              exact absurd (Option.some.inj hx).symm hcsv
          refine ⟨⟨{ d with cclient2 := some mv }, ?_, Or.inl hlist2⟩, hw'⟩
          rw [setCl_records, assq_putRec, if_pos rfl]
        · refine ⟨⟨d', ?_, hlist'⟩, hw'⟩
          rw [setCl_records, assq_putRec, if_neg hr]
          exact hd'
  · intro r' hge
    have hge' : s.nextId ≤ r' := hge
    obtain ⟨ha, hw, hl, hp⟩ := h.fresh r' hge'
    refine ⟨?_, hw, hl, ?_⟩
    · rw [setCl_records, assq_putRec, if_neg (by omega)]
      exact ha
    · intro c' hc'
      rw [getCl_setCl] at hc'
      by_cases hcmv : c' = mv
      · rw [if_pos hcmv] at hc'
        have heq : some r = some r' := hc'
        have := Option.some.inj heq
        omega
      · rw [if_neg hcmv, getCl_putRec, getCl_setCl] at hc'
        by_cases hcsv : c' = sv
        · rw [if_pos hcsv] at hc'
          simp at hc'
        · rw [if_neg hcsv] at hc'
          exact hp c' hc'
  · exact h.decLe

/-- hd_transition_subview preserves the invariant in all cases: dropped
requests change nothing, the two swap branches re-point an existing record
consistently, and the fresh-record branch allocates consistently. -/
theorem mgrInv_subview (sv mv : ℕ) (e : CEvent) (app : Bool) (s : MgrState)
    (h : MgrInv s) : MgrInv (hd_transition_subview sv mv e app s) := by
  unfold hd_transition_subview
  by_cases hsm : sv = mv
  · rw [if_pos hsm]
    exact h
  · rw [if_neg hsm]
    cases app with
    | false => exact h
    | true =>
      cases hsub : (getCl s sv).effectRunning <;>
        cases hmain : (getCl s mv).effectRunning
      · -- neither endpoint is in transition: the fresh-record branch
        simp only [Bool.not_true, Bool.false_and, Bool.false_eq_true, if_false]
        have hmssym : ¬(mv = sv) := fun hx => hsm hx.symm
        constructor
        · exact h.logOnce
        · intro r' d' hrec'
          simp only [setCl_records, assq_cons] at hrec'
          by_cases hr : r' = s.nextId
          · subst hr
            exact (h.fresh s.nextId le_rfl).2.2.1
          · rw [if_neg hr] at hrec'
            exact h.aliveUnlogged r' d' hrec'
        · intro r' hpos
          have hpos' : 0 < occ r' s.waiting := hpos
          obtain ⟨d', hd', ht⟩ := h.waitingAlive r' hpos'
          have hlt := alive_lt_nextId s h r' d' hd'
          refine ⟨d', ?_, ht⟩
          simp only [setCl_records, assq_cons]
          rw [if_neg (by omega)]
          exact hd'
        · exact h.waitingOnce
        · intro c' r' hptr'
          simp only [getCl_setCl] at hptr'
          by_cases hcsv : c' = sv
          · rw [if_pos hcsv] at hptr'
            have heq : some s.nextId = some r' := hptr'
            obtain rfl : s.nextId = r' := Option.some.inj heq
            refine ⟨⟨⟨e, some sv, some mv, true, true⟩, ?_,
                     Or.inl (by rw [hcsv])⟩,
                    (h.fresh s.nextId le_rfl).2.1⟩
            simp [setCl_records, assq_cons]
          · rw [if_neg hcsv] at hptr'
            by_cases hcmv : c' = mv
            · rw [if_pos hcmv] at hptr'
              have heq : some s.nextId = some r' := hptr'
              obtain rfl : s.nextId = r' := Option.some.inj heq
              refine ⟨⟨⟨e, some sv, some mv, true, true⟩, ?_,
                       Or.inr (by rw [hcmv])⟩,
                      (h.fresh s.nextId le_rfl).2.1⟩
              simp [setCl_records, assq_cons]
            · rw [if_neg hcmv, if_neg hcmv, if_neg hcsv] at hptr'
              obtain ⟨⟨d', hd', hlist'⟩, hw'⟩ := h.effectPtr c' r' hptr'
              have hlt := alive_lt_nextId s h r' d' hd'
              refine ⟨⟨d', ?_, hlist'⟩, hw'⟩
              simp only [setCl_records, assq_cons]
              rw [if_neg (by omega)]
              exact hd'
        · intro r' hge
          have hgt : s.nextId + 1 ≤ r' := hge
          obtain ⟨ha, hw, hl, hp⟩ := h.fresh r' (by omega)
          refine ⟨?_, hw, hl, ?_⟩
          · simp only [setCl_records, assq_cons]
            rw [if_neg (by omega)]
            exact ha
          · intro c' hc'
            simp only [getCl_setCl] at hc'
            by_cases hcsv : c' = sv
            · rw [if_pos hcsv] at hc'
              have heq : some s.nextId = some r' := hc'
              have := Option.some.inj heq
              omega
            · rw [if_neg hcsv] at hc'
              by_cases hcmv : c' = mv
              · rw [if_pos hcmv] at hc'
                have heq : some s.nextId = some r' := hc'
                have := Option.some.inj heq
                omega
              · rw [if_neg hcmv, if_neg hcmv, if_neg hcsv] at hc'
                exact hp c' hc'
        · exact h.decLe
      · -- only the mainview is in transition: possible swap
        simp only [Bool.false_and, Bool.and_false, Bool.true_and, Bool.and_true,
          Bool.false_or, Bool.or_false, Bool.true_or, Bool.or_true,
          Bool.not_true, Bool.false_eq_true, Bool.true_eq_false, if_false, if_true]
        split
        · rename_i r hptr
          split
          · rename_i d hrec
            split
            · rename_i hcond
              exact mgrInv_subview_swap_main sv mv r d s h hptr hrec hcond.2
            · exact h
          · exact h
        · exact h
      · -- only the subview is in transition: possible swap
        simp only [Bool.false_and, Bool.and_false, Bool.true_and, Bool.and_true,
          Bool.false_or, Bool.or_false, Bool.true_or, Bool.or_true,
          Bool.not_true, Bool.false_eq_true, Bool.true_eq_false, if_false, if_true]
        split
        · rename_i r hptr
          split
          · rename_i d hrec
            split
            · rename_i hcond
              exact mgrInv_subview_swap_sub sv mv r d s h hptr hrec hcond.2
            · exact h
          · exact h
        · exact h
      · -- both endpoints in transition: dropped
        exact h

/-- hd_transition_stop preserves the invariant: it only ever tears down a
record that some client's armed effect pointer designates, and the
effectPtr invariant guarantees that record is allocated and not deferred. -/
theorem mgrInv_stop (c : ℕ) (s : MgrState) (h : MgrInv s) :
    MgrInv (hd_transition_stop c s) := by
  unfold hd_transition_stop
  cases hptr : (getCl s c).effect with
  | none => exact h
  | some r =>
    obtain ⟨⟨d, hd, _⟩, hw⟩ := h.effectPtr c r hptr
    exact mgrInv_completed r s h d hd hw

/-- The timeline completed signal preserves the invariant: it fires only
for allocated records that still own a timeline, and waitingAlive shows a
timeline-owning record is never in the deferred list. -/
theorem mgrInv_signal (r : ℕ) (s : MgrState) (h : MgrInv s) :
    MgrInv (timelineCompletedSignal r s) := by
  unfold timelineCompletedSignal
  cases hrec : assq r s.records with
  | none => exact h
  | some d =>
    show MgrInv (if d.hasTimeline = true then hd_transition_completed r s else s)
    by_cases ht : d.hasTimeline = true
    · rw [if_pos ht]
      have hw : occ r s.waiting = 0 := by
        by_contra hne
        obtain ⟨d', hd', hfalse⟩ := h.waitingAlive r (Nat.pos_of_ne_zero hne)
        rw [hrec] at hd'
        have he : d = d' := Option.some.inj hd'
        rw [← he, ht] at hfalse
        simp at hfalse
      exact mgrInv_completed r s h d hrec hw
    · rw [if_neg ht]
      exact h

/-- Every lifecycle-manager event preserves the invariant. -/
theorem mgrInv_step (ev : MgrEvent) (s : MgrState) (h : MgrInv s) :
    MgrInv (mgrStep ev s) := by
  cases ev with
  | popup c e pre =>
    cases pre with
    | false => exact h
    | true => exact mgrInv_startClientEffect c e s h
  | fade c e => exact mgrInv_startClientEffect c e s h
  | closeApp c pre =>
    cases pre with
    | false => exact h
    | true => exact mgrInv_startClientEffect c .unmap s h
  | closeAppBeforeRotate c pre =>
    cases pre with
    | false => exact h
    | true => exact mgrInv_closeAppBeforeRotate c s h
  | notification c e => exact mgrInv_startClientEffect c e s h
  | fadeRotate e => exact mgrInv_startFadeRotateEffect e s h
  | subview sv mv e app => exact mgrInv_subview sv mv e app s h
  | timelineCompleted r => exact mgrInv_signal r s h
  | stop c => exact mgrInv_stop c s h
  | drain => exact mgrInv_drain s h

/-- The initial (empty) manager state satisfies the invariant. -/
theorem mgrInv_init : MgrInv {} := by
  constructor
  · intro r
    simp [occ]
  · intro r d hrec
    simp [assq] at hrec
  · intro r hpos
    simp [occ] at hpos
  · intro r
    simp [occ]
  · intro c r hptr
    simp [getCl, assq] at hptr
  · intro r _
    refine ⟨rfl, rfl, rfl, ?_⟩
    intro c
    simp [getCl, assq]
  · intro r
    simp [occ]

/-- Any finite run of the lifecycle manager from the empty state satisfies
the invariant. -/
theorem mgrInv_run (evs : List MgrEvent) : MgrInv (mgrRun evs) := by
  unfold mgrRun
  have hgen : ∀ (l : List MgrEvent) (s : MgrState), MgrInv s →
      MgrInv (l.foldl (fun st ev => mgrStep ev st) s) := by
    intro l
    induction l with
    | nil => intro s hs; exact hs
    | cons e t ih =>
      intro s hs
      exact ih (mgrStep e s) (mgrInv_step e s hs)
  exact hgen evs {} mgrInv_init

/-- C1 (hd-transition.c lines 611-672): the teardown routine
hd_transition_completed runs at most once per EffectRecord, over every
finite sequence of manager operations (constructors, subview swaps, timer
completions, forced stops and the FADE_OUT drain): each record id is
logged as torn down at most once, and in particular the global
effect-running counter is decremented at most once on its behalf. -/
theorem C1_teardown_at_most_once (evs : List MgrEvent) (r : ℕ) :
    occ r (mgrRun evs).completedLog ≤ 1 ∧
      occ r (mgrRun evs).decrementLog ≤ 1 := by
  have h := mgrInv_run evs
  exact ⟨h.logOnce r, le_trans (h.decLe r) (h.logOnce r)⟩

end HdTransition
